import Mathlib

/-!
# Verification of the adnn reverse-mode AD core

Shallow embedding of the adnn automatic-differentiation engine:

* `src/ad/func.js` — the function factories `newUnaryFunction`,
  `newBinaryFunction`, `newFunction` and `naryGetParents`;
* `src/ad/index.js` — `lift`, `isLifted`, `value`, `derivative`;
* `src/unnamed/part_000` (the built-in function library) — `scalar.sum`,
  `scalarsToTensor`, `tensor.concat`;
* `src/nn/networks/linear.js` — `mvmuladd`.

JS numbers are modelled as `ℚ` (the operations the claims exercise are
exact on the inputs used), tensors as a list of rationals plus a dims
list.  Mutable node state (the `dx` accumulators walked by the backward
pass) is modelled by explicit state passing over a tape of nodes.
Parts of the repository that the claims need but whose files are not in
`src/` (`graph.js`'s node base classes, `derivatives.js`'s formula table,
`transform.js`'s backward executor) are modelled from the spec; each such
definition carries a doc comment saying so.
-/

namespace Adnn

/-- A tensor: a dims list plus flat rational data (`tensor.js` is external;
the spec treats it as flat storage with shape-aware allocation). -/
structure Tensor where
  dims : List ℕ
  data : List ℚ
deriving DecidableEq, Repr

/-- `t.length`: number of stored entries. -/
def Tensor.length (t : Tensor) : ℕ := t.data.length

/-- Entry access `t.data[i]`; out-of-range JS access yields `undefined`
(never reached by the claims' well-formed inputs), modelled as `0`. -/
def Tensor.get (t : Tensor) (i : ℕ) : ℚ := t.data.getD i 0

/-- A raw (non-lifted) runtime value: a JS number or a tensor. -/
inductive Raw where
  | num : ℚ → Raw
  | ten : Tensor → Raw
deriving DecidableEq, Repr

/-- The additive identity of a raw value's kind: `0` or the zero tensor of
the same shape.  Modelled from the spec: §3 says `dx` is "initialized to the
additive identity (0, or a zero tensor) at node creation" (`graph.js` is not
in `src/`). -/
def zeroLike : Raw → Raw
  | .num _ => .num 0
  | .ten t => .ten ⟨t.dims, t.data.map fun _ => 0⟩

/-- The node shapes of `graph.js`: leaf nodes made by `lift`
(`ScalarNode`/`TensorNode` with no parents), and the unary / binary / n-ary
variants the factories construct. -/
inductive NodeShape where
  | leaf
  | unary
  | binary
  | nary
deriving DecidableEq, Repr

/-- A runtime value as the factories see it: either raw, or a graph node
carrying its forward value `x`, gradient accumulator `dx`, shape, and the
lifted parents recorded at construction. -/
inductive Value where
  | raw : Raw → Value
  | node : Raw → Raw → NodeShape → List Value → Value

/-- `graph.isNode` / `ad.isLifted`. -/
def Value.isNode : Value → Bool
  | .raw _ => false
  | .node .. => true

/-- `ad.value`: `x.x` if lifted, else `x` itself. -/
def jsValue : Value → Raw
  | .raw r => r
  | .node x _ _ _ => x

/-- The `x` field of a node (`none` on a raw value, where JS member access
would give `undefined`). -/
def Value.xField : Value → Option Raw
  | .raw _ => none
  | .node x _ _ _ => some x

/-- The `parents` recorded on a node (`parent` / `parent1`,`parent2` /
`parents` depending on shape); empty for raw values and leaves. -/
def Value.parents : Value → List Value
  | .raw _ => []
  | .node _ _ _ ps => ps

/-- The shape of a node, `none` for a raw value. -/
def Value.shape : Value → Option NodeShape
  | .raw _ => none
  | .node _ _ s _ => some s

/-- `ad.lift` (src/ad/index.js): identity on nodes, otherwise wrap the raw
value in a fresh leaf node (`doLift` dispatches scalar vs tensor, which the
`Raw` payload already records); `dx` starts at the additive identity. -/
def adLift : Value → Value
  | .raw r => .node r (zeroLike r) .leaf []
  | v => v

/-- The callable returned by `newUnaryFunction` (src/ad/func.js): on a node,
build a unary `FnNode` with `forward(x.x)`; on a raw value, return the raw
forward result. -/
def newUnaryFunctionCall (forward : Raw → Raw) : Value → Value
  | .raw r => .raw (forward r)
  | .node xx dx' s ps => .node (forward xx) (zeroLike (forward xx)) .unary
      [.node xx dx' s ps]

/-- The callable returned by `newBinaryFunction` (src/ad/func.js): dispatch
on which arguments are nodes (`Node11`, `Node10`, `Node01`), else return the
raw forward result.  `Node10`/`Node01` keep the raw side as a captured `arg`,
not a parent. -/
def newBinaryFunctionCall (forward : Raw → Raw → Raw) (x y : Value) : Value :=
  match x, y with
  | .node xx dx1 s1 ps1, .node yx dx2 s2 ps2 =>
      .node (forward xx yx) (zeroLike (forward xx yx)) .binary
        [.node xx dx1 s1 ps1, .node yx dx2 s2 ps2]
  | .node xx dx1 s1 ps1, .raw ry =>
      .node (forward xx ry) (zeroLike (forward xx ry)) .unary
        [.node xx dx1 s1 ps1]
  | .raw rx, .node yx dx2 s2 ps2 =>
      .node (forward rx yx) (zeroLike (forward rx yx)) .unary
        [.node yx dx2 s2 ps2]
  | .raw rx, .raw ry => .raw (forward rx ry)

/-- One position of a JS `arguments` object for a variadic call: an ordinary
value, or an `Array` of values (the array-calling convention). -/
inductive JsArg where
  | val : Value → JsArg
  | arr : List Value → JsArg

/-- The array-or-varargs convention shared by `naryGetParents` and the
variadic built-ins: `arguments.length === 1 && arguments[0] instanceof Array`
unpacks the array, otherwise `arguments` is used as is. -/
def unpackArgs : List JsArg → List JsArg
  | [.arr vs] => vs.map .val
  | args => args

/-- `graph.isNode(arg)` on one argument position (an `Array` is not a node). -/
def JsArg.isLifted : JsArg → Bool
  | .val v => v.isNode
  | .arr _ => false

/-- The node carried by one argument position, if any. -/
def JsArg.nodeOf : JsArg → Option Value
  | .val v => if v.isNode then some v else none
  | .arr _ => none

/-- `naryGetParents` (src/ad/func.js): after unpacking, the `while (n--)`
loop walks the arguments from the last index down to 0 and pushes each node
it meets, so the result is the node arguments in reverse argument order. -/
def naryGetParents (args : List JsArg) : List Value :=
  (unpackArgs args).reverse.filterMap JsArg.nodeOf

/-- The lifted arguments of a call in argument order (used to state what
`naryGetParents` returns). -/
def liftedArgsInOrder (args : List JsArg) : List Value :=
  (unpackArgs args).filterMap JsArg.nodeOf

/-- The callable returned by `newFunction` (src/ad/func.js): compute
`forward.apply(null, arguments)` and `getParents.apply(null, arguments)` on
the original arguments, then pick the node shape from the number of parents
(`0` → raw result, `1` → unary, `2` → binary, more → n-ary). -/
def newFunctionCall (forward : List JsArg → Raw) (getParents : List JsArg → List Value)
    (args : List JsArg) : Value :=
  let output := forward args
  match getParents args with
  | [] => .raw output
  | [p] => .node output (zeroLike output) .unary [p]
  | [p1, p2] => .node output (zeroLike output) .binary [p1, p2]
  | ps => .node output (zeroLike output) .nary ps

/-- JS numeric coercion of one argument position, as the scalar built-ins'
forwards use it after their own `isNode` unwrap (`arg.x` for nodes, `arg`
itself otherwise).  A tensor or `Array` in a number position is outside the
claims' domain (JS garbage), modelled as `0`. -/
def JsArg.asNum : JsArg → ℚ
  | .val v =>
      match jsValue v with
      | .num q => q
      | .ten _ => 0
  | .arr _ => 0

/-- The flat data of one tensor argument position (after the built-ins' own
`isNode` unwrap); non-tensor positions are outside the claims' domain,
modelled as empty. -/
def JsArg.tenData : JsArg → List ℚ
  | .val v =>
      match jsValue v with
      | .ten t => t.data
      | .num _ => []
  | .arr _ => []

/-- `fns.scalar.sum`'s forward (src/unnamed/part_000): unpack, then
`while (n--) thesum += x` — sum the (unwrapped) arguments from the last one
down. -/
def sumForward (args : List JsArg) : Raw :=
  .num ((unpackArgs args).reverse.foldl (fun acc a => acc + a.asNum) 0)

/-- `fns.scalarsToTensor`'s forward (src/unnamed/part_000): unpack, allocate
a rank-1 tensor of the argument count, and store each argument's unwrapped
value at its own index. -/
def scalarsToTensorForward (args : List JsArg) : Raw :=
  let a := unpackArgs args
  .ten ⟨[a.length], a.map JsArg.asNum⟩

/-- `fns.tensor.concat`'s forward (src/unnamed/part_000): unpack, allocate a
rank-1 tensor of the total length, and copy each argument's unwrapped data in
argument order at the running offset. -/
def concatForward (args : List JsArg) : Raw :=
  let a := unpackArgs args
  .ten ⟨[(a.map fun g => g.tenData.length).sum], (a.map JsArg.tenData).flatten⟩

/-- `fns.scalar.sum` as registered through `newFunction` with
`naryGetParents`. -/
def scalarSum (args : List JsArg) : Value :=
  newFunctionCall sumForward naryGetParents args

/-- `fns.scalarsToTensor` as registered through `newFunction` with
`naryGetParents`. -/
def scalarsToTensor (args : List JsArg) : Value :=
  newFunctionCall scalarsToTensorForward naryGetParents args

/-- `fns.tensor.concat` as registered through `newFunction` with
`naryGetParents` (forward only; its backward step is modelled below for C6). -/
def tensorConcat (args : List JsArg) : Value :=
  newFunctionCall concatForward naryGetParents args

/-- No argument position of the call is a lifted node (after the
array-or-varargs convention resolves what the call's arguments are). -/
def noLifted (args : List JsArg) : Bool :=
  (unpackArgs args).all fun a => !a.isLifted

/-- Replace every argument of a call by its unwrapped (`ad.value`) raw
value, keeping the array-vs-spread structure. -/
def unwrapArgs (args : List JsArg) : List JsArg :=
  args.map fun a =>
    match a with
    | .val v => .val (.raw (jsValue v))
    | .arr vs => .arr (vs.map fun v => .raw (jsValue v))

/-- A legal `newFunction` descriptor forward that observes whether any of its
arguments is a node (as the repository's own `newFunction` forwards may:
e.g. `tensorEntry`'s forward branches on `graph.isNode(t)`). -/
def detectForward (args : List JsArg) : Raw :=
  .num (if args.any JsArg.isLifted then 1 else 0)

/-! ## The scalar tape model (claim C1)

The diamond-accumulation claim needs the mutable `dx` accumulators and the
backward pass.  Scalar nodes live on a tape (a list indexed by creation
order, which §3 of the spec notes is a topological order); state passing
replaces JS heap mutation. -/

/-- What produced a scalar tape node: a `lift` leaf, or the both-lifted
multiply node `Node11` of `newBinaryFunction` applied to the `scalar.mul`
descriptor, with the creation indices of its two parents. -/
inductive SOp where
  | leaf
  | mul (p1 p2 : ℕ)
deriving DecidableEq, Repr

/-- A scalar graph node: forward value `x`, gradient accumulator `dx`, and
its producing operation. -/
structure SNode where
  x : ℚ
  dx : ℚ
  op : SOp
deriving DecidableEq, Repr

/-- The tape: all nodes of a forward pass in creation order. -/
abbrev Tape := List SNode

/-- The forward value of node `i` (0 when `i` is not on the tape). -/
def tapeX (s : Tape) (i : ℕ) : ℚ := ((s.get? i).map SNode.x).getD 0

/-- The gradient accumulator of node `i` (0 when `i` is not on the tape). -/
def tapeDx (s : Tape) (i : ℕ) : ℚ := ((s.get? i).map SNode.dx).getD 0

/-- Overwrite node `i`'s `dx` (no-op off the tape). -/
def setDx : Tape → ℕ → ℚ → Tape
  | [], _, _ => []
  | n :: t, 0, v => { n with dx := v } :: t
  | n :: t, i + 1, v => n :: setDx t i v

/-- `node.dx += v`. -/
def addDx (s : Tape) (i : ℕ) (v : ℚ) : Tape := setDx s i (tapeDx s i + v)

/-- The parent indices of node `i`. -/
def parentIds (s : Tape) (i : ℕ) : List ℕ :=
  match (s.get? i).map SNode.op with
  | some (.mul p1 p2) => [p1, p2]
  | _ => []

/-- Modelled from the spec: `scalar.mul`'s first backward formula
(`derivatives.js` is not in `src/`); §4.3 says each formula receives the node
whose `dx` is written plus the sibling's raw value and adds its contribution,
and §8's product rule fixes the contribution to `this.dx` times the sibling's
value.  `i` is the output node (`this`), `p1` the first parent, `y` the raw
second argument. -/
def mulBackward1 (s : Tape) (i p1 : ℕ) (y : ℚ) : Tape :=
  addDx s p1 (tapeDx s i * y)

/-- Modelled from the spec: `scalar.mul`'s second backward formula, symmetric
to `mulBackward1` (`x` is the raw first argument, `p2` the second parent). -/
def mulBackward2 (s : Tape) (i : ℕ) (x : ℚ) (p2 : ℕ) : Tape :=
  addDx s p2 (tapeDx s i * x)

/-- `Node11.prototype.backward` (src/ad/func.js) for `scalar.mul`: run
`backward1(this.parent1, this.parent2.x)` and then
`backward2(this.parent1.x, this.parent2)` on the state the first call left. -/
def node11MulBackward (s : Tape) (i p1 p2 : ℕ) : Tape :=
  let s1 := mulBackward1 s i p1 (tapeX s p2)
  mulBackward2 s1 i (tapeX s1 p1) p2

/-- The bound backward step of node `i`: a leaf contributes nothing (it has
no parents), a mul node runs `Node11.prototype.backward`. -/
def nodeBackward (s : Tape) (i : ℕ) : Tape :=
  match (s.get? i).map SNode.op with
  | some (.mul p1 p2) => node11MulBackward s i p1 p2
  | _ => s

/-- The creation indices reachable from `o` through `parents`, found by one
scan from `o` down to 0 (parents are created strictly earlier, §3). -/
def reachSet (s : Tape) (o : ℕ) : List ℕ :=
  (List.range (o + 1)).reverse.foldl
    (fun m i =>
      if i ∈ m then m ++ (parentIds s i).filter (fun p => !m.contains p) else m)
    [o]

/-- Modelled from the spec: the backward-pass executor (`transform.js` is not
in `src/`), §4.5: seed `o.dx` with 1 (scalar output), zero the `dx` of every
other node reachable from `o` via `parents`, then visit nodes in strictly
decreasing creation order starting at `o`, invoking each visited node's bound
backward step; per §9 the traversal covers exactly the nodes reachable from
`o`. -/
def backwardPass (s : Tape) (o : ℕ) : Tape :=
  let r := reachSet s o
  let seeded := setDx s o 1
  let reset := r.foldl (fun t i => if i = o then t else setDx t i 0) seeded
  (List.range (o + 1)).reverse.foldl
    (fun t i => if i ∈ r then nodeBackward t i else t) reset

/-- `ad.lift` on a raw scalar, tape version: append a leaf node whose `dx`
starts at the additive identity (§3); returns the new tape and the node's
index. -/
def liftScalarT (s : Tape) (q : ℚ) : Tape × ℕ :=
  (s ++ [⟨q, 0, .leaf⟩], s.length)

/-- `scalar.mul` on two lifted arguments, tape version: `newBinaryFunction`'s
both-node branch builds `Node11(forward(x.x, y.x), x, y)` with the forward
`function(x, y) { return x * y; }` (src/unnamed/part_000). -/
def mulNodeCall (s : Tape) (i j : ℕ) : Tape × ℕ :=
  (s ++ [⟨tapeX s i * tapeX s j, 0, .mul i j⟩], s.length)

/-- The diamond program of the claim: `y = lift(2.0); a = mul(y, y)`.
Node 0 is `y`, node 1 is `a`. -/
def diamondTape : Tape :=
  let l := liftScalarT [] 2
  (mulNodeCall l.1 l.2 l.2).1

/-! ## The `tensor.concat` backward step (claim C6) -/

/-- One argument of a `tensor.concat` call as the backward step sees it: a
raw tensor (just its data), or a lifted tensor node with its forward data
and its `dx` accumulator data. -/
inductive CArg where
  | rawT : List ℚ → CArg
  | nodeT : List ℚ → List ℚ → CArg
deriving DecidableEq, Repr

/-- The forward data of one concat argument (`graph.isNode(arg) ? arg.x :
arg`). -/
def CArg.fwdData : CArg → List ℚ
  | .rawT d => d
  | .nodeT x _ => x

/-- `fns.tensor.concat`'s forward on explicit arguments
(src/unnamed/part_000): total size, then copy each argument's data at the
running offset in argument order — the concatenation of the data lists. -/
def concatForwardData (args : List CArg) : List ℚ :=
  (args.map CArg.fwdData).flatten

/-- `tn.dx.data[len] += this.dx.data[i + len]` for every `len` below the
parent's `dx` length (out-of-range reads of `this.dx` are outside the
claims' well-formed inputs, modelled as 0). -/
def sliceAdd (dx thisDx : List ℚ) (i : ℕ) : List ℚ :=
  (List.range dx.length).map fun k => dx.getD k 0 + thisDx.getD (i + k) 0

/-- The body of `fns.tensor.concat`'s backward loop (src/unnamed/part_000)
on the argument list already reversed: JS walks `args` with `while (n--)`
(last argument first) while the offset `i` starts at 0 and grows by each
argument's length. -/
def concatBackwardRev (thisDx : List ℚ) : List CArg → ℕ → List CArg
  | [], _ => []
  | .rawT d :: rest, i => .rawT d :: concatBackwardRev thisDx rest (i + d.length)
  | .nodeT x dx :: rest, i =>
      .nodeT x (sliceAdd dx thisDx i) :: concatBackwardRev thisDx rest (i + dx.length)

/-- `fns.tensor.concat`'s backward step: update every lifted argument's `dx`
by the `while (n--)` loop over the arguments from the last to the first,
with the read offset into `this.dx` starting at 0. -/
def concatBackward (args : List CArg) (thisDx : List ℚ) : List CArg :=
  (concatBackwardRev thisDx args.reverse 0).reverse

/-- The offset at which argument `j`'s data sits in the concatenated forward
result: the total length of the arguments before it. -/
def concatOffset (args : List CArg) (j : ℕ) : ℕ :=
  ((args.take j).map fun a => a.fwdData.length).sum

/-! ## `ad.derivative` (claim C7) -/

/-- `ad.derivative` (src/ad/index.js) is `function(x) { return x.dx; }`.
JS member access on a non-null receiver completes normally: on a node it
yields the `dx` field, on a raw number or tensor it yields `undefined`
(modelled `none`); it throws only on a `null`/`undefined` receiver, which no
`Value` is — so no  `.error` is ever produced.  The `Except` layer records
normal versus abrupt completion so that "fails with an error" is statable. -/
def adDerivative : Value → Except String (Option Raw)
  | .raw _ => .ok none
  | .node _ dx _ _ => .ok (some dx)

/-! ## Operation registration (claim C8) -/

/-- The `OutputType` value handed to a factory: the `Number` constructor,
the `Tensor` constructor, or anything else. -/
inductive OutputTypeSpec where
  | numberType
  | tensorType
  | other : String → OutputTypeSpec
deriving DecidableEq, Repr

/-- `checkOutputType` (src/ad/func.js): `assert(OutputType === Tensor ||
OutputType === Number, ...)` — an assertion failure is an abrupt completion,
modelled as `.error`. -/
def checkOutputType : OutputTypeSpec → Except String Unit
  | .numberType => .ok ()
  | .tensorType => .ok ()
  | .other _ =>
      .error "Attempting to create AD function with invalid output type"

/-- `newUnaryFunction` at registration time (src/ad/func.js): read the
descriptor, run `checkOutputType`, and only then build and return the
callable. -/
def newUnaryFunctionReg (ot : OutputTypeSpec) (forward : Raw → Raw) :
    Except String (Value → Value) :=
  match checkOutputType ot with
  | .error e => .error e
  | .ok _ => .ok (newUnaryFunctionCall forward)

/-- `newBinaryFunction` at registration time (src/ad/func.js). -/
def newBinaryFunctionReg (ot : OutputTypeSpec) (forward : Raw → Raw → Raw) :
    Except String (Value → Value → Value) :=
  match checkOutputType ot with
  | .error e => .error e
  | .ok _ => .ok (newBinaryFunctionCall forward)

/-- `newFunction` at registration time (src/ad/func.js). -/
def newFunctionReg (ot : OutputTypeSpec) (forward : List JsArg → Raw)
    (getParents : List JsArg → List Value) :
    Except String (List JsArg → Value) :=
  match checkOutputType ot with
  | .error e => .error e
  | .ok _ => .ok (newFunctionCall forward getParents)

/-! ## `mvmuladd` (claim C9) -/

/-- `mvmuladd`'s forward (src/nn/networks/linear.js) on the unwrapped
(`ad.value`) operands: with `w = x.length` and `h = b.length`, assert
`w === A.dims[1]` (an absent `A.dims[1]` also fails the strict comparison),
then start from a clone of `b` and add every full row-by-vector dot product
— no truncation and no broadcasting. -/
def mvmuladdForward (A x b : Tensor) : Except String Tensor :=
  let w := x.length
  let h := b.length
  if A.dims.get? 1 = some w then
    .ok ⟨b.dims,
      (List.range h).map fun r =>
        b.get r + ((List.range w).map fun c => A.get (r * w + c) * x.get c).sum⟩
  else
    .error "Linear network: input size differs from the weight width"

/-! ## Helper lemmas -/

theorem unpackArgs_map_val (vs : List Value) :
    unpackArgs (vs.map JsArg.val) = vs.map JsArg.val := by
  cases vs with
  | nil => rfl
  | cons v rest => cases rest <;> rfl

theorem filterMap_reverse_comm (f : JsArg → Option Value) (l : List JsArg) :
    l.reverse.filterMap f = (l.filterMap f).reverse := by
  induction l with
  | nil => rfl
  | cons a l ih =>
      rw [List.reverse_cons, List.filterMap_append, ih, List.filterMap_cons]
      cases h : f a <;> simp [h]

theorem naryGetParents_eq_nil_of_noLifted (args : List JsArg)
    (h : noLifted args = true) : naryGetParents args = [] := by
  unfold noLifted at h
  unfold naryGetParents
  rw [List.filterMap_eq_nil_iff]
  intro a ha
  rw [List.mem_reverse] at ha
  have hna := (List.all_eq_true.mp h) a ha
  cases a with
  | val v =>
      simp only [JsArg.isLifted, Bool.not_eq_true'] at hna
      simp [JsArg.nodeOf, hna]
  | arr vs => rfl

theorem length_setDx (s : Tape) (i : ℕ) (v : ℚ) :
    (setDx s i v).length = s.length := by
  induction s generalizing i with
  | nil => rfl
  | cons n t ih => cases i <;> simp [setDx, ih]

theorem tapeDx_setDx (s : Tape) (i j : ℕ) (v : ℚ) :
    tapeDx (setDx s i v) j = if i = j ∧ j < s.length then v else tapeDx s j := by
  induction s generalizing i j with
  | nil => simp [setDx, tapeDx]
  | cons n t ih =>
      cases i with
      | zero =>
          cases j with
          | zero => simp [setDx, tapeDx]
          | succ j => simp [setDx, tapeDx]
      | succ i =>
          cases j with
          | zero => simp [setDx, tapeDx]
          | succ j => simpa [setDx, tapeDx, Nat.succ_lt_succ_iff] using ih i j

theorem tapeX_setDx (s : Tape) (i j : ℕ) (v : ℚ) :
    tapeX (setDx s i v) j = tapeX s j := by
  induction s generalizing i j with
  | nil => simp [setDx]
  | cons n t ih =>
      cases i with
      | zero => cases j <;> simp [setDx, tapeX]
      | succ i =>
          cases j with
          | zero => simp [setDx, tapeX]
          | succ j => simpa [setDx, tapeX] using ih i j

/-! ## The claims -/

/-- C2: Constant folding: for every operation built by any of the three
factories, a call none of whose arguments is a lifted node returns the raw
forward result — no graph node is constructed and `isLifted` of the result
is false. -/
theorem C2_constant_folding :
    (∀ (f : Raw → Raw) (r : Raw),
        newUnaryFunctionCall f (.raw r) = .raw (f r)
          ∧ (newUnaryFunctionCall f (.raw r)).isNode = false)
    ∧ (∀ (f : Raw → Raw → Raw) (r₁ r₂ : Raw),
        newBinaryFunctionCall f (.raw r₁) (.raw r₂) = .raw (f r₁ r₂)
          ∧ (newBinaryFunctionCall f (.raw r₁) (.raw r₂)).isNode = false)
    ∧ (∀ (f : List JsArg → Raw) (args : List JsArg), noLifted args = true →
        newFunctionCall f naryGetParents args = .raw (f args)
          ∧ (newFunctionCall f naryGetParents args).isNode = false) := by
  refine ⟨fun f r => ⟨rfl, rfl⟩, fun f r₁ r₂ => ⟨rfl, rfl⟩, fun f args h => ?_⟩
  have hp := naryGetParents_eq_nil_of_noLifted args h
  constructor <;> simp [newFunctionCall, hp, Value.isNode]

/-- C2 witness: `scalar.sum(3)` (one raw argument) folds to the raw number 3
and is not lifted. -/
theorem C2_constant_folding_witness :
    newFunctionCall sumForward naryGetParents [JsArg.val (.raw (.num 3))]
        = .raw (sumForward [JsArg.val (.raw (.num 3))])
      ∧ (newFunctionCall sumForward naryGetParents
          [JsArg.val (.raw (.num 3))]).isNode = false :=
  C2_constant_folding.2.2 sumForward [JsArg.val (.raw (.num 3))] rfl

/-- C3 counterexample: `naryGetParents` applied to two lifted arguments
returns them in reverse argument order, so the 0th lifted argument
(`lift 1`) is not the 0th parent. -/
theorem C3_counterexample :
    naryGetParents
        [JsArg.val (adLift (.raw (.num 1))), JsArg.val (adLift (.raw (.num 2)))]
      = [adLift (.raw (.num 2)), adLift (.raw (.num 1))]
    ∧ naryGetParents
        [JsArg.val (adLift (.raw (.num 1))), JsArg.val (adLift (.raw (.num 2)))]
      ≠ [adLift (.raw (.num 1)), adLift (.raw (.num 2))] := by
  refine ⟨rfl, fun h => ?_⟩
  have h1 : adLift (.raw (.num 2)) = adLift (.raw (.num 1)) := by
    injection h
  simp only [adLift, Value.node.injEq, Raw.num.injEq] at h1
  norm_num at h1

/-- C3 amended: for operations built by `newBinaryFunction`, the parents are
exactly the lifted arguments in argument order (`parent1` the first argument
and `parent2` the second when both are lifted, the single lifted argument
otherwise); for operations using `naryGetParents`, the parents are exactly
the lifted arguments of the call in *reverse* argument order. -/
theorem C3_parents_amended :
    (∀ (f : Raw → Raw → Raw) (xx dx₁ yx dx₂ : Raw) (s₁ s₂ : NodeShape)
        (ps₁ ps₂ : List Value),
        (newBinaryFunctionCall f (.node xx dx₁ s₁ ps₁) (.node yx dx₂ s₂ ps₂)).parents
          = [.node xx dx₁ s₁ ps₁, .node yx dx₂ s₂ ps₂])
    ∧ (∀ (f : Raw → Raw → Raw) (xx dx₁ : Raw) (s₁ : NodeShape)
        (ps₁ : List Value) (ry : Raw),
        (newBinaryFunctionCall f (.node xx dx₁ s₁ ps₁) (.raw ry)).parents
          = [.node xx dx₁ s₁ ps₁])
    ∧ (∀ (f : Raw → Raw → Raw) (rx yx dx₂ : Raw) (s₂ : NodeShape)
        (ps₂ : List Value),
        (newBinaryFunctionCall f (.raw rx) (.node yx dx₂ s₂ ps₂)).parents
          = [.node yx dx₂ s₂ ps₂])
    ∧ (∀ args : List JsArg,
        naryGetParents args = (liftedArgsInOrder args).reverse) := by
  refine ⟨fun _ _ _ _ _ _ _ _ _ => rfl, fun _ _ _ _ _ _ => rfl,
    fun _ _ _ _ _ _ => rfl, fun args => ?_⟩
  unfold naryGetParents liftedArgsInOrder
  exact filterMap_reverse_comm _ _

/-- C4 counterexample: a `newFunction` descriptor's forward formula receives
the original, possibly lifted arguments (`forward.apply(null, arguments)`),
not their unwrapped values: a forward that branches on `isNode` stores 1 in
the node's `x`, while the same formula on the unwrapped arguments gives 0. -/
theorem C4_counterexample :
    (newFunctionCall detectForward naryGetParents
        [JsArg.val (adLift (.raw (.num 5)))]).xField = some (.num 1)
    ∧ detectForward (unwrapArgs [JsArg.val (adLift (.raw (.num 5)))]) = .num 0 :=
  ⟨rfl, rfl⟩

/-- C4 amended: `newUnaryFunction` and `newBinaryFunction` callables compute
the node's `x` by applying the descriptor's forward formula to the unwrapped
raw values of the arguments; a `newFunction` callable instead applies the
descriptor's forward formula to the original (possibly node) arguments and
stores its result unchanged, leaving any unwrapping to the formula itself. -/
theorem C4_forward_unwrap_amended :
    (∀ (f : Raw → Raw) (xx dx : Raw) (s : NodeShape) (ps : List Value),
        (newUnaryFunctionCall f (.node xx dx s ps)).xField = some (f xx))
    ∧ (∀ (f : Raw → Raw → Raw) (xx dx₁ yx dx₂ : Raw) (s₁ s₂ : NodeShape)
        (ps₁ ps₂ : List Value),
        (newBinaryFunctionCall f (.node xx dx₁ s₁ ps₁) (.node yx dx₂ s₂ ps₂)).xField
          = some (f xx yx))
    ∧ (∀ (f : Raw → Raw → Raw) (xx dx₁ : Raw) (s₁ : NodeShape)
        (ps₁ : List Value) (ry : Raw),
        (newBinaryFunctionCall f (.node xx dx₁ s₁ ps₁) (.raw ry)).xField
          = some (f xx ry))
    ∧ (∀ (f : Raw → Raw → Raw) (rx yx dx₂ : Raw) (s₂ : NodeShape)
        (ps₂ : List Value),
        (newBinaryFunctionCall f (.raw rx) (.node yx dx₂ s₂ ps₂)).xField
          = some (f rx yx))
    ∧ (∀ (f : List JsArg → Raw) (gp : List JsArg → List Value)
        (args : List JsArg),
        jsValue (newFunctionCall f gp args) = f args) := by
  refine ⟨fun _ _ _ _ _ => rfl, fun _ _ _ _ _ _ _ _ _ => rfl,
    fun _ _ _ _ _ _ => rfl, fun _ _ _ _ _ _ => rfl, fun f gp args => ?_⟩
  unfold newFunctionCall
  rcases gp args with _ | ⟨p₁, _ | ⟨p₂, _ | ⟨p₃, rest⟩⟩⟩ <;> rfl

/-- C5: for every `newFunction`-built operation and every call, the node
shape is decided only by the number of parents `getParents` returns for that
call: 0 parents fold to the raw forward value, 1 gives a unary node, 2 a
binary node, more an n-ary node — whatever the nominal arity was. -/
theorem C5_shape_by_parent_count (f : List JsArg → Raw)
    (gp : List JsArg → List Value) (args : List JsArg) :
    ((gp args).length = 0 → newFunctionCall f gp args = .raw (f args))
    ∧ ((gp args).length = 1 →
        newFunctionCall f gp args
          = .node (f args) (zeroLike (f args)) .unary (gp args))
    ∧ ((gp args).length = 2 →
        newFunctionCall f gp args
          = .node (f args) (zeroLike (f args)) .binary (gp args))
    ∧ (2 < (gp args).length →
        newFunctionCall f gp args
          = .node (f args) (zeroLike (f args)) .nary (gp args)) := by
  unfold newFunctionCall
  rcases h : gp args with _ | ⟨p₁, _ | ⟨p₂, _ | ⟨p₃, rest⟩⟩⟩ <;>
    simp [h]

/-- C10: the array-or-varargs built-ins (`scalar.sum`, `scalarsToTensor`,
`tensor.concat`) return the same value — same forward result, same lifted
parents — whether called with one array of arguments or with the same
arguments spread. -/
theorem C10_array_varargs_equiv (vs : List Value) :
    scalarSum [JsArg.arr vs] = scalarSum (vs.map JsArg.val)
    ∧ scalarsToTensor [JsArg.arr vs] = scalarsToTensor (vs.map JsArg.val)
    ∧ tensorConcat [JsArg.arr vs] = tensorConcat (vs.map JsArg.val) := by
  have hu : unpackArgs [JsArg.arr vs] = unpackArgs (vs.map JsArg.val) := by
    rw [unpackArgs_map_val]; rfl
  refine ⟨?_, ?_, ?_⟩ <;>
    simp only [scalarSum, scalarsToTensor, tensorConcat, newFunctionCall,
      sumForward, scalarsToTensorForward, concatForward, naryGetParents, hu]

/-- C1: Diamond accumulation: `Node11.prototype.backward` invokes both
per-argument backward formulas even when `parent1` and `parent2` are the
same node, and each formula adds (never overwrites) its contribution on top
of the parent's existing `dx`; in particular, for
`y = lift(2.0); a = mul(y, y); backward(a)`, `derivative(y) == 4.0`. -/
theorem C1_diamond_accumulation :
    (∀ (s : Tape) (i p : ℕ), i ≠ p → p < s.length →
        tapeDx (node11MulBackward s i p p) p
          = tapeDx s p + tapeDx s i * tapeX s p + tapeDx s i * tapeX s p)
    ∧ tapeDx (backwardPass diamondTape 1) 0 = 4 := by
  constructor
  · intro s i p hip hp
    unfold node11MulBackward mulBackward1 mulBackward2 addDx
    simp [tapeX_setDx, tapeDx_setDx, length_setDx, hp, Ne.symm hip]
  · norm_num [diamondTape, liftScalarT, mulNodeCall, backwardPass, reachSet,
      parentIds, nodeBackward, node11MulBackward, mulBackward1, mulBackward2,
      addDx, setDx, tapeDx, tapeX, List.range_succ]

/-- C6: evaluation at the failing input: concatenating two lifted length-1
tensors puts the first argument's data at offset 0 of the forward result,
but the backward step adds `this.dx` entry 1 into the first argument's `dx`
and entry 0 into the second's — the loop walks arguments last-to-first while
the read offset grows from 0, so each parent receives the other's slice. -/
theorem C6_concat_backward_eval :
    concatForwardData [CArg.nodeT [1] [0], CArg.nodeT [2] [0]] = [1, 2]
    ∧ concatOffset [CArg.nodeT [1] [0], CArg.nodeT [2] [0]] 0 = 0
    ∧ concatBackward [CArg.nodeT [1] [0], CArg.nodeT [2] [0]] [10, 20]
        = [CArg.nodeT [1] [20], CArg.nodeT [2] [10]] := by
  refine ⟨by norm_num [concatForwardData, CArg.fwdData], rfl,
    by norm_num [concatBackward, concatBackwardRev, sliceAdd, List.getD,
      List.range_succ]⟩

/-- C7 counterexample: `derivative(3)` on the raw number 3 completes
normally with `undefined` (`.ok none`) — it does not fail with an error. -/
theorem C7_counterexample :
    adDerivative (.raw (.num 3)) = .ok none
    ∧ (adDerivative (.raw (.num 3))).isOk = true := ⟨rfl, rfl⟩

/-- C7 amended: calling `derivative()` on a raw (non-lifted) value never
throws: it completes normally with `undefined`, which is neither an error
nor a zero (nor any other numeric) result. -/
theorem C7_derivative_amended (r : Raw) :
    adDerivative (.raw r) = .ok none
    ∧ (adDerivative (.raw r)).isOk = true
    ∧ ∀ q : ℚ, adDerivative (.raw r) ≠ .ok (some (.num q)) := by
  refine ⟨rfl, rfl, fun q h => ?_⟩
  simp [adDerivative] at h

/-- C8: registering an operation through any of the three factories with an
`OutputType` other than `Number` or `Tensor` fails at registration time, so
no callable is returned; with a valid `OutputType` registration always
succeeds. -/
theorem C8_registration_check :
    (∀ (ot : OutputTypeSpec) (f : Raw → Raw),
        (newUnaryFunctionReg ot f).isOk = true
          ↔ (ot = .numberType ∨ ot = .tensorType))
    ∧ (∀ (ot : OutputTypeSpec) (f : Raw → Raw → Raw),
        (newBinaryFunctionReg ot f).isOk = true
          ↔ (ot = .numberType ∨ ot = .tensorType))
    ∧ (∀ (ot : OutputTypeSpec) (f : List JsArg → Raw)
        (gp : List JsArg → List Value),
        (newFunctionReg ot f gp).isOk = true
          ↔ (ot = .numberType ∨ ot = .tensorType)) := by
  refine ⟨fun ot f => ?_, fun ot f => ?_, fun ot f gp => ?_⟩ <;>
    cases ot <;>
      simp [newUnaryFunctionReg, newBinaryFunctionReg, newFunctionReg,
        checkOutputType, Except.isOk, Except.toBool]

/-- C9: `mvmuladd` fails at forward-evaluation time exactly when the input
vector's length differs from `A.dims[1]`; on matching sizes it returns `b`
plus the full row-by-vector dot products — nothing is truncated or
broadcast. -/
theorem C9_mvmuladd_shape_check (A x b : Tensor) :
    ((mvmuladdForward A x b).isOk = false ↔ A.dims.get? 1 ≠ some x.length)
    ∧ (A.dims.get? 1 = some x.length →
        mvmuladdForward A x b
          = .ok ⟨b.dims, (List.range b.length).map fun r =>
              b.get r + ((List.range x.length).map fun c =>
                A.get (r * x.length + c) * x.get c).sum⟩) := by
  simp only [mvmuladdForward]
  split_ifs with h <;>
    simp [h, Except.isOk, Except.toBool] <;>
      simpa using h

end Adnn
